import Mathlib

/-!
Verification of the FourCastNetv2 adapter (`ai_models_fourcastnetv2/model.py`).

The file shallowly embeds the data and operations of the `FourCastNetv2`
class: the fixed channel-ordering lists, the normalisation statistics and
`normalise`, the weight-dictionary adaptation in `load_model`, the input
channel selection, the autoregressive inference loop of `run`, and the
dataset assembly of the list branch of `run`.

Arrays of floating point numbers are modelled with exact rational entries;
a tensor of shape (1, C, H, W) is modelled as a list of C channels, each a
flat list of its H*W grid values (the leading batch dimension of size 1 is
dropped).  The external neural network is an opaque function on tensors.
-/

set_option maxRecDepth 10000

namespace FCNv2

/-- Surface parameters, `FourCastNetv2.param_sfc`. -/
def param_sfc : List String :=
  ["10u", "10v", "2t", "sp", "msl", "tcwv", "100u", "100v"]

/-- Surface parameters in xarray naming, `FourCastNetv2.param_sfc_xr`. -/
def param_sfc_xr : List String :=
  ["u10", "v10", "u100", "v100", "t2m", "sp", "msl", "tcwv"]

/-- Pressure-level parameters and levels, `FourCastNetv2.param_level_pl`. -/
def param_level_pl : List String × List Nat :=
  (["u", "v", "z", "t", "r"],
   [1000, 925, 850, 700, 600, 500, 400, 300, 250, 200, 150, 100, 50])

/-- Channel ordering used for the climetlab field list, `FourCastNetv2.ordering_cml`. -/
def ordering_cml : List String :=
  ["10u", "10v", "100u", "100v", "2t", "sp", "msl", "tcwv",
   "u50", "u100", "u150", "u200", "u250", "u300", "u400", "u500", "u600",
   "u700", "u850", "u925", "u1000",
   "v50", "v100", "v150", "v200", "v250", "v300", "v400", "v500", "v600",
   "v700", "v850", "v925", "v1000",
   "z50", "z100", "z150", "z200", "z250", "z300", "z400", "z500", "z600",
   "z700", "z850", "z925", "z1000",
   "t50", "t100", "t150", "t200", "t250", "t300", "t400", "t500", "t600",
   "t700", "t850", "t925", "t1000",
   "r50", "r100", "r150", "r200", "r250", "r300", "r400", "r500", "r600",
   "r700", "r850", "r925", "r1000"]

/-- Channel ordering used for the xarray branch, `FourCastNetv2.ordering_xr`. -/
def ordering_xr : List String :=
  ["u10", "v10", "u100", "v100", "t2m", "sp", "msl", "tcwv",
   "u50", "u100", "u150", "u200", "u250", "u300", "u400", "u500", "u600",
   "u700", "u850", "u925", "u1000",
   "v50", "v100", "v150", "v200", "v250", "v300", "v400", "v500", "v600",
   "v700", "v850", "v925", "v1000",
   "z50", "z100", "z150", "z200", "z250", "z300", "z400", "z500", "z600",
   "z700", "z850", "z925", "z1000",
   "t50", "t100", "t150", "t200", "t250", "t300", "t400", "t500", "t600",
   "t700", "t850", "t925", "t1000",
   "r50", "r100", "r150", "r200", "r250", "r300", "r400", "r500", "r600",
   "r700", "r850", "r925", "r1000"]

/-- `self.hour_steps = 6` set in `FourCastNetv2.__init__`. -/
def hour_steps : Nat := 6

/-- `self.backbone_channels = len(self.ordering_cml)` set in `__init__`. -/
def backbone_channels : Nat := ordering_cml.length

/-- A tensor of shape (1, C, H, W): C channels of flat grid data. -/
abbrev Tensor : Type := List (List ℚ)

/-- `FourCastNetv2.normalise`: with `reverse=False` computes
`(data - self.means) / self.stds`, with `reverse=True` computes
`data * self.stds + self.means`.  The statistics arrays have shape
(1, C, 1, 1), so they broadcast per channel: they are modelled as one
rational per channel. -/
def normalise (means stds : List ℚ) (data : Tensor) (reverse : Bool) : Tensor :=
  if reverse then
    List.zipWith (fun ms ch => ch.map fun x => x * ms.2 + ms.1) (means.zip stds) data
  else
    List.zipWith (fun ms ch => ch.map fun x => (x - ms.1) / ms.2) (means.zip stds) data

/-- Trace of the autoregressive inference loop in `FourCastNetv2.run`:
the tensor fed into each forward pass, the (step, array) pairs emitted
(the array handed to `self.write` or appended to `outputs` is the
denormalised output), and the value of `input_iter` after the loop. -/
structure RunTrace where
  passInputs : List Tensor
  emitted : List (Nat × Tensor)
  finalInput : Tensor

/-- Loop body of `run`: in each iteration `output = model(input_iter)`,
then `input_iter = output`, `step = (i + 1) * self.hour_steps`, the
output is denormalised with `self.normalise(..., reverse=True)` and
emitted with label `step`. -/
def runLoop (model : Tensor → Tensor) (means stds : List ℚ) :
    Nat → Nat → Tensor → RunTrace
  | 0, _, x => ⟨[], [], x⟩
  | n + 1, i, x =>
    let output := model x
    let step := (i + 1) * hour_steps
    let emittedArr := normalise means stds output true
    let rest := runLoop model means stds n (i + 1) output
    ⟨x :: rest.passInputs, (step, emittedArr) :: rest.emitted, rest.finalInput⟩

/-- The inference session of `run`: the loop body executes
`range(self.lead_time // self.hour_steps)` times, starting from the
normalised input tensor. -/
def runInference (model : Tensor → Tensor) (means stds : List ℚ)
    (leadTime : Nat) (x0 : Tensor) : RunTrace :=
  runLoop model means stds (leadTime / hour_steps) 0 x0

/-- The keys named by `drop_vars` in `load_model`. -/
def drop_vars : List String := ["module.norm.weight", "module.norm.bias"]

/-- The local `weights` dictionary of `load_model`:
`{k: v for k, v in checkpoint["model_state"].items() if k not in drop_vars}`.
This dictionary is computed but is not used by either branch of the
try/except that follows it. -/
def filteredWeights {V : Type} (model_state : List (String × V)) :
    List (String × V) :=
  model_state.filter fun kv => decide (kv.1 ∉ drop_vars)

/-- The `new_state_dict` built in the try branch of `load_model`: every
key loses its first 7 characters (`name = k[7:]`, dropping the
"module." prefix) and entries whose stripped name is "ged" are skipped. -/
def newStateDict {V : Type} (model_state : List (String × V)) :
    List (String × V) :=
  model_state.filterMap fun kv =>
    if kv.1.drop 7 = "ged" then none else some (kv.1.drop 7, kv.2)

/-- The dictionary `load_model` loads into the network: `new_state_dict`
when `model.load_state_dict(new_state_dict)` succeeds, and (when that
call raises and the except branch runs) the raw `checkpoint["model_state"]`. -/
def loadModelWeights {V : Type} (model_state : List (String × V))
    (primaryRaises : Bool) : List (String × V) :=
  if primaryRaises then model_state else newStateDict model_state

/-- Claim-side comprehension for the primary path of `load_model`:
`{ k[7:] : v  for (k, v) in model_state  if k[7:] != "ged" }`. -/
def newStateDictSpec {V : Type} (model_state : List (String × V)) :
    List (String × V) :=
  (model_state.map fun kv => (kv.1.drop 7, kv.2)).filter fun kv =>
    decide (kv.1 ≠ "ged")

/-- A NumPy array: a dtype tag plus entries indexed by (axis 0, axis 1).
The statistics files have shape (1, 74, 1, 1), so the trailing singleton
axes are collapsed into the entry. -/
structure NpArray where
  dtype : String
  data : List (List ℚ)

/-- `arr[:, :c, ...]`: keep axis 0, truncate axis 1 to its first c entries. -/
def truncateAxis1 (c : Nat) (a : NpArray) : NpArray :=
  { a with data := a.data.map fun row => row.take c }

/-- `arr.astype(np.float32)`: the dtype change (the value rounding of the
float32 conversion is not modelled). -/
def astypeFloat32 (a : NpArray) : NpArray :=
  { a with dtype := "float32" }

/-- The attributes of a `FourCastNetv2` instance set by `__init__` and
`load_statistics`. -/
structure ModelState where
  assets : String
  n_lat : Nat
  n_lon : Nat
  hourSteps : Nat
  backboneChannels : Nat
  checkpoint_path : String
  means : NpArray
  stds : NpArray

/-- `FourCastNetv2.load_statistics`, with the filesystem passed in as a
map from paths to arrays: load `global_means.npy` and `global_stds.npy`
from the assets directory, truncate each along its second axis to the
first `self.backbone_channels` entries, convert to float32, and store
them in `self.means` / `self.stds`. -/
def load_statistics (fs : String → NpArray) (st : ModelState) : ModelState :=
  let means := astypeFloat32
    (truncateAxis1 st.backboneChannels (fs (st.assets ++ "/global_means.npy")))
  let stds := astypeFloat32
    (truncateAxis1 st.backboneChannels (fs (st.assets ++ "/global_stds.npy")))
  { st with means := means, stds := stds }

/-- Division tracked as a partial operation: dividing by a zero standard
deviation is not well defined on real data. -/
def qdivChecked (x s : ℚ) : Option ℚ :=
  if s = 0 then none else some (x / s)

/-- Apply a partial function to every entry of a channel, failing if any
application fails. -/
def mapOptionQ (f : ℚ → Option ℚ) : List ℚ → Option (List ℚ)
  | [] => some []
  | x :: xs =>
    match f x, mapOptionQ f xs with
    | some y, some ys => some (y :: ys)
    | _, _ => none

/-- The forward branch of `normalise` (`(data - self.means) / self.stds`)
with each division tracked via `qdivChecked`; the source contains no
guard on the entries of `stds`. -/
def normaliseForwardChecked : List ℚ → List ℚ → Tensor → Option Tensor
  | m :: ms, s :: ss, d :: ds =>
    match mapOptionQ (fun x => qdivChecked (x - m) s) d,
        normaliseForwardChecked ms ss ds with
    | some ch, some rest => some (ch :: rest)
    | _, _ => none
  | _, _, _ => some []

/-- The non-list branch of input preparation in `run`:
`all_fields.sel(param_level=ordering_cml, remapping=...)` followed by
`all_fields.order_by({"param_level": ordering_cml}, ...)`.  The field
list is modelled as an association list keyed by the remapped name
"{param}{levelist}"; the sel/order_by pair keeps, for each name of
`ordering_cml` in order, the field carrying that name. -/
def selOrderCml {F : Type} (fl : List (String × F)) : List (String × F) :=
  ordering_cml.filterMap fun name => fl.find? fun kv => kv.1 == name

/-- The list branch of input preparation in `run`: the surface fields in
`param_sfc_xr` order, followed, for each entry `p` of `ordering_xr[8:]`,
by the pressure-level field of parameter `p[0]` at level `p[1:]`
(`param, level = p[0], p[1:]`). -/
def assembleXr {F : Type} (sfc : String → F) (pl : String → String → F) :
    List F :=
  param_sfc_xr.map sfc ++
    (ordering_xr.drop 8).map fun p => pl (p.take 1) (p.drop 1)

/-- Per-variable payload in `data_vars`: surface variables carry a
(time, lat, lon) array, pressure-level variables a (time, level, lat, lon)
array (lat/lon collapsed into the entry as elsewhere). -/
inductive VarData : Type
  | sfc (d : List (List ℚ))
  | pl (d : List (List (List ℚ)))

/-- Length of the time axis of a data variable. -/
def VarData.timeLen : VarData → Nat
  | .sfc d => d.length
  | .pl d => d.length

/-- The while loop building `data_vars` in the list branch of `run`: for
`i < 8`, variable `ordering_xr[i]` receives the ("time", "lat", "lon")
array `[out[0, i] for out in outputs]` and `i` advances by 1; otherwise
variable `param_level_pl[0][j]` receives the
("time", "level", "lat", "lon") array with
`data_pl[s, k] = outputs[s][0, i + k]` for the 13 levels, `i` advances by
13 and `j` by 1; the loop stops once `i` reaches `len(ordering_xr)`. -/
def buildVars (outputs : List Tensor) (i j : Nat) :
    List (String × List String × VarData) :=
  if h : i < ordering_xr.length then
    if i < 8 then
      (ordering_xr.getD i "", ["time", "lat", "lon"],
        VarData.sfc (outputs.map fun out => out.getD i [])) ::
        buildVars outputs (i + 1) j
    else
      (param_level_pl.1.getD j "", ["time", "level", "lat", "lon"],
        VarData.pl (outputs.map fun out =>
          (List.range 13).map fun k => out.getD (i + k) [])) ::
        buildVars outputs (i + 13) (j + 1)
  else []
termination_by ordering_xr.length - i
decreasing_by
  all_goals omega

/-- `np.arange(start, stop, step)` over the naturals, for `step > 0`. -/
def arange (start stop step : Nat) : List Nat :=
  (List.range ((stop - start + step - 1) / step)).map fun n => start + n * step

/-- `steps = np.arange(6, self.lead_time + 6, 6)`. -/
def stepsList (leadTime : Nat) : List Nat := arange 6 (leadTime + 6) 6

/-- `times[i] = all_fields[1].time.values[0] + np.timedelta64(steps[i], "h")`:
timestamps as signed hour offsets from an epoch. -/
def timesList (start : Int) (leadTime : Nat) : List Int :=
  (stepsList leadTime).map fun (s : Nat) => start + (s : Int)

/-- The labelled dataset of the list branch, after the rename of "level"
to "isobaricInhPa", as handed to `to_netcdf`. -/
structure Dataset where
  data_vars : List (String × List String × VarData)
  lat : List ℚ
  lon : List ℚ
  time : List Int
  isobaricInhPa : List Nat

/-- The `xr.Dataset` constructor: it raises (modelled as `none`) when a
data variable's time axis disagrees with the length of the time
coordinate. -/
def mkDataset (dvs : List (String × List String × VarData)) (lat lon : List ℚ)
    (times : List Int) (levels : List Nat) : Option Dataset :=
  if dvs.all fun v => v.2.2.timeLen == times.length then
    some ⟨dvs, lat, lon, times, levels⟩
  else none

/-- The list branch of `run` after the inference loop: build `data_vars`
from the emitted outputs, the time coordinate from
`np.arange(6, lead_time + 6, 6)` hours past the start time, the level
coordinate `param_level_pl[1][::-1]`, and construct the dataset that is
then written to a NetCDF file. -/
def assembleDataset (model : Tensor → Tensor) (means stds : List ℚ)
    (leadTime : Nat) (x0 : Tensor) (start : Int) (lat lon : List ℚ) :
    Option Dataset :=
  let outputs := (runInference model means stds leadTime x0).emitted.map Prod.snd
  mkDataset (buildVars outputs 0 0) lat lon (timesList start leadTime)
    param_level_pl.2.reverse

/-- The non-list branch emission: for each emitted step,
`self.write(output[0, k, ...], ..., step=step)` is called once per
channel index `k` of the denormalised output. -/
def writesNonList (trace : RunTrace) : List (Nat × Nat × List ℚ) :=
  trace.emitted.flatMap fun so =>
    (List.range so.2.length).map fun k => (so.1, k, so.2.getD k [])

/-- Concrete tensor used by witnesses. -/
def exTensor : Tensor := [[1]]

/-- Concrete field list for witnesses: every name of `ordering_cml`
mapped to a dummy field. -/
def exFl : List (String × Nat) := ordering_cml.map fun n => (n, 0)

/-- Concrete surface dataset lookup for witnesses. -/
def exSfc : String → Nat := fun s => s.length

/-- Concrete pressure-level dataset lookup for witnesses. -/
def exPl : String → String → Nat := fun p l => p.length + 100 * l.length

/-- Concrete statistics array for witnesses. -/
def exNp : NpArray := ⟨"float64", [[1, 2, 3]]⟩

/-- Concrete filesystem for witnesses. -/
def exFs : String → NpArray := fun _ => exNp

/-- Concrete model state for witnesses, with the attribute values set by
`FourCastNetv2.__init__`. -/
def exSt : ModelState :=
  ⟨"assets", 721, 1440, 6, 73, "assets/weights.tar", ⟨"", []⟩, ⟨"", []⟩⟩

/-- C10: the two ordering lists, `backbone_channels`, and the
surface/pressure-level parameter counts are all consistent:
`len(ordering_cml) = len(ordering_xr) = backbone_channels = 73
 = len(param_sfc) + len(param_level_pl[0]) * len(param_level_pl[1])`
(8 surface channels plus 5 parameters times 13 pressure levels). -/
theorem orderings_consistent :
    ordering_cml.length = 73 ∧
    ordering_xr.length = 73 ∧
    backbone_channels = 73 ∧
    param_sfc.length + param_level_pl.1.length * param_level_pl.2.length = 73 ∧
    backbone_channels =
      param_sfc.length + param_level_pl.1.length * param_level_pl.2.length := by
  refine ⟨rfl, rfl, rfl, rfl, rfl⟩

theorem normalise_cons_false (m s : ℚ) (ms ss : List ℚ) (d : List ℚ) (ds : Tensor) :
    normalise (m :: ms) (s :: ss) (d :: ds) false =
      (d.map fun x => (x - m) / s) :: normalise ms ss ds false := by
  simp [normalise]

theorem normalise_cons_true (m s : ℚ) (ms ss : List ℚ) (d : List ℚ) (ds : Tensor) :
    normalise (m :: ms) (s :: ss) (d :: ds) true =
      (d.map fun x => x * s + m) :: normalise ms ss ds true := by
  simp [normalise]

theorem map_cancel {f : ℚ → ℚ} (hf : ∀ x, f x = x) (l : List ℚ) : l.map f = l := by
  induction l with
  | nil => rfl
  | cons a t ih => simp [hf, ih]

/-- C7: `normalise` with `reverse=False` is `(data - means) / stds`,
with `reverse=True` it is `data * stds + means`, and (in exact arithmetic,
when every channel std is nonzero and the channel counts agree) reverse
normalisation undoes forward normalisation. -/
theorem normalise_roundtrip (means stds : List ℚ) (data : Tensor)
    (hm : data.length = means.length) (hs : stds.length = means.length)
    (hnz : ∀ s ∈ stds, s ≠ 0) :
    normalise means stds (normalise means stds data false) true = data := by
  induction means generalizing stds data with
  | nil =>
    have hd : data = [] := List.length_eq_zero.mp hm
    subst hd
    simp [normalise]
  | cons m ms ih =>
    cases stds with
    | nil => simp at hs
    | cons s ss =>
      cases data with
      | nil => simp at hm
      | cons d ds =>
        have hs0 : s ≠ 0 := hnz s (by simp)
        have htail : normalise ms ss (normalise ms ss ds false) true = ds := by
          refine ih ss ds (Nat.succ_injective hm) (Nat.succ_injective hs) ?_
          intro x hx
          exact hnz x (by simp [hx])
        rw [normalise_cons_false, normalise_cons_true, htail, List.map_map]
        refine congrArg (· :: ds) ?_
        refine map_cancel (fun x => ?_) d
        show (x - m) / s * s + m = x
        rw [div_mul_cancel₀ _ hs0, sub_add_cancel]

/-- Witness for `normalise_roundtrip` at a concrete input. -/
theorem normalise_roundtrip_witness :
    normalise [3, 5] [2, 4] (normalise [3, 5] [2, 4] [[1, 7], [9]] false) true
      = [[1, 7], [9]] :=
  normalise_roundtrip [3, 5] [2, 4] [[1, 7], [9]] (by decide) (by decide)
    (by decide)

theorem runLoop_passInputs_length (model : Tensor → Tensor)
    (means stds : List ℚ) (n i : Nat) (x : Tensor) :
    (runLoop model means stds n i x).passInputs.length = n := by
  induction n generalizing i x with
  | zero => rfl
  | succ n ih => simp [runLoop, ih]

theorem runLoop_emitted_length (model : Tensor → Tensor)
    (means stds : List ℚ) (n i : Nat) (x : Tensor) :
    (runLoop model means stds n i x).emitted.length = n := by
  induction n generalizing i x with
  | zero => rfl
  | succ n ih => simp [runLoop, ih]

theorem runLoop_passInputs_getD (model : Tensor → Tensor) (means stds : List ℚ) :
    ∀ n i x j, j < n →
      (runLoop model means stds n i x).passInputs.getD j [] = model^[j] x
  | n + 1, _, x, 0, _ => by simp [runLoop]
  | n + 1, i, x, j + 1, h => by
    rw [Function.iterate_succ_apply]
    simpa [runLoop] using
      runLoop_passInputs_getD model means stds n (i + 1) (model x) j
        (Nat.lt_of_succ_lt_succ h)

theorem runLoop_emitted_getD (model : Tensor → Tensor) (means stds : List ℚ) :
    ∀ n i x j, j < n →
      (runLoop model means stds n i x).emitted.getD j ((0, []) : Nat × Tensor) =
        ((i + j + 1) * hour_steps, normalise means stds (model^[j + 1] x) true)
  | n + 1, i, x, 0, _ => by simp [runLoop]
  | n + 1, i, x, j + 1, h => by
    have ih :=
      runLoop_emitted_getD model means stds n (i + 1) (model x) j
        (Nat.lt_of_succ_lt_succ h)
    rw [Function.iterate_succ_apply] at ih ⊢
    have harith : i + 1 + j + 1 = i + (j + 1) + 1 := by omega
    rw [harith] at ih
    simpa [runLoop] using ih

theorem runLoop_finalInput (model : Tensor → Tensor) (means stds : List ℚ) :
    ∀ n i x, (runLoop model means stds n i x).finalInput = model^[n] x
  | 0, _, _ => rfl
  | n + 1, i, x => by
    rw [Function.iterate_succ_apply]
    simpa [runLoop] using runLoop_finalInput model means stds n (i + 1) (model x)

/-- C2: `run` performs exactly `lead_time / hour_steps` forward passes of
the model (one per loop iteration), where `hour_steps = 6`; `/` is the
floor division of `range(self.lead_time // self.hour_steps)`. -/
theorem run_forward_pass_count (model : Tensor → Tensor) (means stds : List ℚ)
    (leadTime : Nat) (x0 : Tensor) :
    (runInference model means stds leadTime x0).passInputs.length = leadTime / 6 ∧
    hour_steps = 6 :=
  ⟨runLoop_passInputs_length model means stds (leadTime / hour_steps) 0 x0, rfl⟩

/-- C1: in iteration `i` of the inference loop, the tensor fed to the
next forward pass (or left in `input_iter` after the last iteration) is
the raw, still-normalised model output of iteration `i`, while the array
emitted for that step is the reverse normalisation of that same output,
labelled with step `(i + 1) * hour_steps` hours. -/
theorem run_loop_feeds_raw_emits_denormalised (model : Tensor → Tensor)
    (means stds : List ℚ) (leadTime : Nat) (x0 : Tensor) (i : Nat)
    (hi : i < leadTime / hour_steps) :
    (runInference model means stds leadTime x0).emitted.getD i ((0, []) : Nat × Tensor) =
      ((i + 1) * hour_steps,
        normalise means stds
          (model ((runInference model means stds leadTime x0).passInputs.getD i []))
          true) ∧
    (i + 1 < leadTime / hour_steps →
      (runInference model means stds leadTime x0).passInputs.getD (i + 1) [] =
        model ((runInference model means stds leadTime x0).passInputs.getD i [])) ∧
    (i + 1 = leadTime / hour_steps →
      (runInference model means stds leadTime x0).finalInput =
        model ((runInference model means stds leadTime x0).passInputs.getD i [])) := by
  have hpass := runLoop_passInputs_getD model means stds (leadTime / hour_steps) 0 x0 i hi
  have hem := runLoop_emitted_getD model means stds (leadTime / hour_steps) 0 x0 i hi
  refine ⟨?_, ?_, ?_⟩
  · rw [show runInference model means stds leadTime x0 =
        runLoop model means stds (leadTime / hour_steps) 0 x0 from rfl,
      hem, hpass, Nat.zero_add, Function.iterate_succ_apply']
  · intro hlt
    have hpass1 := runLoop_passInputs_getD model means stds (leadTime / hour_steps) 0 x0
      (i + 1) hlt
    rw [show runInference model means stds leadTime x0 =
        runLoop model means stds (leadTime / hour_steps) 0 x0 from rfl,
      hpass1, hpass]
    exact Function.iterate_succ_apply' model i x0
  · intro heq
    have hfin := runLoop_finalInput model means stds (leadTime / hour_steps) 0 x0
    rw [show runInference model means stds leadTime x0 =
        runLoop model means stds (leadTime / hour_steps) 0 x0 from rfl,
      hfin, hpass, ← heq]
    exact Function.iterate_succ_apply' model i x0

/-- Witness for `run_loop_feeds_raw_emits_denormalised` at
`lead_time = 12`, iteration 0, the identity network. -/
theorem run_loop_feeds_raw_emits_denormalised_witness :
    (runInference (fun t => t) [2] [3] 12 [[1]]).emitted.getD 0 ((0, []) : Nat × Tensor) =
      ((0 + 1) * hour_steps,
        normalise [2] [3]
          ((fun (t : Tensor) => t)
            ((runInference (fun t => t) [2] [3] 12 [[1]]).passInputs.getD 0 []))
          true) ∧
    (0 + 1 < 12 / hour_steps →
      (runInference (fun t => t) [2] [3] 12 [[1]]).passInputs.getD (0 + 1) [] =
        (fun (t : Tensor) => t)
          ((runInference (fun t => t) [2] [3] 12 [[1]]).passInputs.getD 0 [])) ∧
    (0 + 1 = 12 / hour_steps →
      (runInference (fun t => t) [2] [3] 12 [[1]]).finalInput =
        (fun (t : Tensor) => t)
          ((runInference (fun t => t) [2] [3] 12 [[1]]).passInputs.getD 0 [])) :=
  run_loop_feeds_raw_emits_denormalised (fun t => t) [2] [3] 12 [[1]] 0 (by decide)

theorem newStateDict_eq_spec {V : Type} (ms : List (String × V)) :
    newStateDict ms = newStateDictSpec ms := by
  induction ms with
  | nil => rfl
  | cons kv tl ih =>
    by_cases h : kv.1.drop 7 = "ged" <;>
      simp [newStateDict, newStateDictSpec, h, List.filterMap_cons] at ih ⊢ <;>
      exact ih

/-- C4: in the primary (non-fallback) path, the state dict loaded into
the network is exactly the comprehension
`{ k[7:] : v | (k, v) ∈ model_state, k[7:] ≠ "ged" }`: every key has its
first 7 characters removed and entries whose stripped name is "ged" are
omitted. -/
theorem load_model_primary_strips_prefix {V : Type}
    (model_state : List (String × V)) :
    loadModelWeights model_state false = newStateDictSpec model_state := by
  rw [show loadModelWeights model_state false = newStateDict model_state from rfl]
  exact newStateDict_eq_spec model_state

/-- C3 counterexample: when the primary load raises, the fallback loads
the raw `checkpoint["model_state"]`, not the drop_vars-filtered
dictionary: with `model_state = [("module.norm.weight", 1), ("module.a", 2)]`
the fallback result still contains "module.norm.weight". -/
theorem load_model_fallback_not_filtered :
    loadModelWeights [("module.norm.weight", (1 : Nat)), ("module.a", 2)] true ≠
      filteredWeights [("module.norm.weight", (1 : Nat)), ("module.a", 2)] := by
  decide

/-- C3 amended: when loading the prefix-stripped state dict raises, the
model is loaded from `checkpoint["model_state"]` unchanged; in particular
the entries "module.norm.weight" / "module.norm.bias" are NOT removed
(the drop_vars-filtered `weights` dictionary is computed but never used). -/
theorem load_model_fallback_raw {V : Type} (model_state : List (String × V))
    (v : V) (h : ("module.norm.weight", v) ∈ model_state) :
    loadModelWeights model_state true = model_state ∧
    ("module.norm.weight", v) ∈ loadModelWeights model_state true :=
  ⟨rfl, by simpa [loadModelWeights] using h⟩

/-- Witness for `load_model_fallback_raw` at a concrete dictionary. -/
theorem load_model_fallback_raw_witness :
    loadModelWeights [("module.norm.weight", (5 : Nat))] true =
      [("module.norm.weight", (5 : Nat))] ∧
    ("module.norm.weight", (5 : Nat)) ∈
      loadModelWeights [("module.norm.weight", (5 : Nat))] true :=
  load_model_fallback_raw [("module.norm.weight", (5 : Nat))] 5 (by decide)

/-- C8: `load_statistics` loads `global_means.npy` and `global_stds.npy`
from the assets directory and stores them as `self.means` / `self.stds`,
each truncated along its second axis to the first
`backbone_channels = 73` channels and tagged float32, with every other
attribute unchanged; each stored row has at most 73 entries. -/
theorem load_statistics_spec (fs : String → NpArray) (st : ModelState)
    (hbc : st.backboneChannels = backbone_channels) :
    load_statistics fs st =
      { st with
        means := astypeFloat32 (truncateAxis1 backbone_channels
          (fs (st.assets ++ "/global_means.npy"))),
        stds := astypeFloat32 (truncateAxis1 backbone_channels
          (fs (st.assets ++ "/global_stds.npy"))) } ∧
    (∀ row ∈ (load_statistics fs st).means.data, row.length ≤ 73) ∧
    (∀ row ∈ (load_statistics fs st).stds.data, row.length ≤ 73) := by
  refine ⟨by rw [load_statistics, hbc], ?_, ?_⟩ <;>
  · intro row hrow
    simp only [load_statistics, astypeFloat32, truncateAxis1, List.mem_map] at hrow
    obtain ⟨r, _, hr⟩ := hrow
    rw [← hr, List.length_take, hbc]
    exact le_trans (Nat.min_le_left _ _) (le_refl 73)

theorem mapOptionQ_eq_some_map {f : ℚ → Option ℚ} {g : ℚ → ℚ} (l : List ℚ)
    (h : ∀ x ∈ l, f x = some (g x)) : mapOptionQ f l = some (l.map g) := by
  induction l with
  | nil => rfl
  | cons a t ih =>
    have ha : f a = some (g a) := h a (by simp)
    have ht := ih fun x hx => h x (by simp [hx])
    simp [mapOptionQ, ha, ht]

/-- C9: forward normalisation divides by `stds` with no guard against
zero entries; with matching channel counts and nonempty channels it is
well defined exactly when every entry of `stds` is nonzero, and in that
case it agrees with the unchecked `normalise`. -/
theorem normalise_forward_requires_nonzero_stds (means stds : List ℚ)
    (data : Tensor) (hm : data.length = means.length)
    (hs : stds.length = means.length) (hne : ∀ ch ∈ data, ch ≠ ([] : List ℚ)) :
    ((normaliseForwardChecked means stds data).isSome ↔ ∀ s ∈ stds, s ≠ 0) ∧
    ((∀ s ∈ stds, s ≠ 0) →
      normaliseForwardChecked means stds data =
        some (normalise means stds data false)) := by
  induction means generalizing stds data with
  | nil =>
    have hd : data = [] := List.length_eq_zero.mp hm
    have hss : stds = [] := List.length_eq_zero.mp hs
    subst hd; subst hss
    exact ⟨by simp [normaliseForwardChecked], fun _ => by
      simp [normaliseForwardChecked, normalise]⟩
  | cons m ms ih =>
    cases stds with
    | nil => simp at hs
    | cons s ss =>
      cases data with
      | nil => simp at hm
      | cons d ds =>
        have htail := ih ss ds (Nat.succ_injective hm) (Nat.succ_injective hs)
          (fun ch hch => hne ch (by simp [hch]))
        by_cases hs0 : s = 0
        · subst hs0
          have hd0 : d ≠ ([] : List ℚ) := hne d (by simp)
          obtain ⟨x, d', rfl⟩ := List.exists_cons_of_ne_nil hd0
          have hhead :
              mapOptionQ (fun y => qdivChecked (y - m) 0) (x :: d') = none := by
            simp [mapOptionQ, qdivChecked]
          refine ⟨?_, fun hall => absurd rfl (hall 0 (by simp))⟩
          rw [show normaliseForwardChecked (m :: ms) (0 :: ss) ((x :: d') :: ds) =
              match mapOptionQ (fun y => qdivChecked (y - m) 0) (x :: d'),
                  normaliseForwardChecked ms ss ds with
              | some ch, some rest => some (ch :: rest)
              | _, _ => none from rfl, hhead]
          simp
        · have hhead : mapOptionQ (fun x => qdivChecked (x - m) s) d =
              some (d.map fun x => (x - m) / s) :=
            mapOptionQ_eq_some_map d fun x _ => by simp [qdivChecked, hs0]
          have hunfold : normaliseForwardChecked (m :: ms) (s :: ss) (d :: ds) =
              match mapOptionQ (fun x => qdivChecked (x - m) s) d,
                  normaliseForwardChecked ms ss ds with
              | some ch, some rest => some (ch :: rest)
              | _, _ => none := rfl
          constructor
          · rw [hunfold, hhead]
            cases hopt : normaliseForwardChecked ms ss ds with
            | none =>
              simp only [Option.isSome_none]
              constructor
              · intro hfalse; cases hfalse
              · intro hall
                have : (normaliseForwardChecked ms ss ds).isSome = true :=
                  htail.1.mpr fun t ht => hall t (by simp [ht])
                rw [hopt] at this
                cases this
            | some rest =>
              simp only [Option.isSome_some, true_iff]
              intro t ht
              rcases List.mem_cons.mp ht with h1 | h2
              · subst h1; exact hs0
              · refine htail.1.mp ?_ t h2
                rw [hopt]; rfl
          · intro hall
            have htl : normaliseForwardChecked ms ss ds =
                some (normalise ms ss ds false) :=
              htail.2 fun t ht => hall t (by simp [ht])
            rw [hunfold, hhead, htl, normalise_cons_false]

/-- Witness for `normalise_forward_requires_nonzero_stds` at a concrete
input with a zero std and at one without. -/
theorem normalise_forward_requires_nonzero_stds_witness :
    (((normaliseForwardChecked [3] [0] [[1, 2]]).isSome ↔
        ∀ s ∈ ([0] : List ℚ), s ≠ 0) ∧
      ((∀ s ∈ ([0] : List ℚ), s ≠ 0) →
        normaliseForwardChecked [3] [0] [[1, 2]] =
          some (normalise [3] [0] [[1, 2]] false))) ∧
    (((normaliseForwardChecked [3] [2] [[1, 2]]).isSome ↔
        ∀ s ∈ ([2] : List ℚ), s ≠ 0) ∧
      ((∀ s ∈ ([2] : List ℚ), s ≠ 0) →
        normaliseForwardChecked [3] [2] [[1, 2]] =
          some (normalise [3] [2] [[1, 2]] false))) :=
  ⟨normalise_forward_requires_nonzero_stds [3] [0] [[1, 2]] (by decide)
      (by decide) (by decide),
    normalise_forward_requires_nonzero_stds [3] [2] [[1, 2]] (by decide)
      (by decide) (by decide)⟩

theorem filterMap_getD_all_some {α β : Type} (f : α → Option β) (dA : α) (dB : β) :
    ∀ (l : List α) (j : Nat), j < l.length → (∀ a ∈ l, (f a).isSome) →
      (l.filterMap f).getD j dB = (f (l.getD j dA)).getD dB
  | a :: t, 0, _, hall => by
    rcases hfa : f a with _ | b
    · exact absurd (hall a (by simp)) (by simp [hfa])
    · simp [List.filterMap_cons, hfa]
  | a :: t, j + 1, h, hall => by
    rcases hfa : f a with _ | b
    · exact absurd (hall a (by simp)) (by simp [hfa])
    · simp only [List.filterMap_cons, hfa, List.getD_cons_succ]
      exact filterMap_getD_all_some f dA dB t j (Nat.lt_of_succ_lt_succ h)
        fun x hx => hall x (by simp [hx])

theorem map_getD_lt {α β : Type} (f : α → β) (dA : α) (dB : β) :
    ∀ (l : List α) (j : Nat), j < l.length →
      (l.map f).getD j dB = f (l.getD j dA)
  | _ :: _, 0, _ => rfl
  | _ :: t, j + 1, h => by
    simp only [List.map_cons, List.getD_cons_succ]
    exact map_getD_lt f dA dB t j (Nat.lt_of_succ_lt_succ h)

theorem getD_drop_add {α : Type} :
    ∀ (l : List α) (m n : Nat) (d : α), (l.drop m).getD n d = l.getD (m + n) d
  | _, 0, _, _ => by simp
  | [], _ + 1, _, _ => by simp
  | _ :: t, m + 1, n, d => by
    rw [List.drop_succ_cons, getD_drop_add t m n d, Nat.succ_add,
      List.getD_cons_succ]

/-- C5: channel selection and ordering of the input tensor.  In the
non-list branch, channel `j` is the field named `ordering_cml[j]` (under
the "{param}{levelist}" remapping).  In the list branch, channels 0..7
are the surface fields in `param_sfc_xr` order and channels 8..72 are the
pressure-level fields of `ordering_xr[8:]`, each entry `p` parsed as
parameter `p[0]` at level `p[1:]`. -/
theorem run_channel_selection {F : Type} (fl : List (String × F))
    (sfc : String → F) (pl : String → String → F) (dKV : String × F) (dF : F)
    (j : Nat) (hj : j < 73)
    (hfl : ∀ name ∈ ordering_cml, (fl.find? fun kv => kv.1 == name).isSome) :
    (((selOrderCml fl).getD j dKV).1 = ordering_cml.getD j "" ∧
      (selOrderCml fl).getD j dKV =
        (fl.find? fun kv => kv.1 == ordering_cml.getD j "").getD dKV) ∧
    (j < 8 → (assembleXr sfc pl).getD j dF = sfc (param_sfc_xr.getD j "")) ∧
    (8 ≤ j →
      (assembleXr sfc pl).getD j dF =
        pl ((ordering_xr.getD j "").take 1) ((ordering_xr.getD j "").drop 1)) := by
  have hlen : ordering_cml.length = 73 := rfl
  have hj' : j < ordering_cml.length := by rw [hlen]; exact hj
  have hsel : (selOrderCml fl).getD j dKV =
      (fl.find? fun kv => kv.1 == ordering_cml.getD j "").getD dKV := by
    rw [selOrderCml,
      filterMap_getD_all_some (fun name => fl.find? fun kv => kv.1 == name)
        "" dKV ordering_cml j hj' hfl]
  refine ⟨⟨?_, hsel⟩, ?_, ?_⟩
  · rw [hsel]
    have hmem : ordering_cml.getD j "" ∈ ordering_cml := by
      rw [List.getD_eq_getElem _ _ hj']
      exact List.getElem_mem hj'
    have hsome := hfl (ordering_cml.getD j "") hmem
    rcases hfind : fl.find? fun kv => kv.1 == ordering_cml.getD j "" with _ | kv
    · rw [hfind] at hsome; cases hsome
    · rw [hfind]
      have hbeq := @List.find?_some _ (fun kv => kv.1 == ordering_cml.getD j "") kv fl hfind
      exact eq_of_beq hbeq
  · intro h8
    have h8' : j < (param_sfc_xr.map sfc).length := by
      rw [List.length_map]
      exact lt_of_lt_of_le h8 (by norm_num [param_sfc_xr])
    rw [assembleXr, List.getD_append _ _ _ _ h8']
    exact map_getD_lt sfc "" dF param_sfc_xr j
      (by simpa using h8')
  · intro h8
    have hlen8 : (param_sfc_xr.map sfc).length = 8 := by
      rw [List.length_map]; rfl
    rw [assembleXr, List.getD_append_right _ _ _ _ (by rw [hlen8]; exact h8),
      hlen8]
    have hjd : j - 8 < (ordering_xr.drop 8).length := by
      have : ordering_xr.length = 73 := rfl
      rw [List.length_drop, this]
      omega
    rw [map_getD_lt (fun p => pl (p.take 1) (p.drop 1)) "" dF _ (j - 8) hjd,
      getD_drop_add]
    rw [show 8 + (j - 8) = j by omega]

theorem ordering_xr_length : ordering_xr.length = 73 := rfl

theorem buildVars_unfold (outputs : List Tensor) :
    buildVars outputs 0 0 =
      [(ordering_xr.getD 0 "", ["time", "lat", "lon"],
          VarData.sfc (outputs.map fun out => out.getD 0 [])),
       (ordering_xr.getD 1 "", ["time", "lat", "lon"],
          VarData.sfc (outputs.map fun out => out.getD 1 [])),
       (ordering_xr.getD 2 "", ["time", "lat", "lon"],
          VarData.sfc (outputs.map fun out => out.getD 2 [])),
       (ordering_xr.getD 3 "", ["time", "lat", "lon"],
          VarData.sfc (outputs.map fun out => out.getD 3 [])),
       (ordering_xr.getD 4 "", ["time", "lat", "lon"],
          VarData.sfc (outputs.map fun out => out.getD 4 [])),
       (ordering_xr.getD 5 "", ["time", "lat", "lon"],
          VarData.sfc (outputs.map fun out => out.getD 5 [])),
       (ordering_xr.getD 6 "", ["time", "lat", "lon"],
          VarData.sfc (outputs.map fun out => out.getD 6 [])),
       (ordering_xr.getD 7 "", ["time", "lat", "lon"],
          VarData.sfc (outputs.map fun out => out.getD 7 [])),
       (param_level_pl.1.getD 0 "", ["time", "level", "lat", "lon"],
          VarData.pl (outputs.map fun out =>
            (List.range 13).map fun k => out.getD (8 + k) [])),
       (param_level_pl.1.getD 1 "", ["time", "level", "lat", "lon"],
          VarData.pl (outputs.map fun out =>
            (List.range 13).map fun k => out.getD (21 + k) [])),
       (param_level_pl.1.getD 2 "", ["time", "level", "lat", "lon"],
          VarData.pl (outputs.map fun out =>
            (List.range 13).map fun k => out.getD (34 + k) [])),
       (param_level_pl.1.getD 3 "", ["time", "level", "lat", "lon"],
          VarData.pl (outputs.map fun out =>
            (List.range 13).map fun k => out.getD (47 + k) [])),
       (param_level_pl.1.getD 4 "", ["time", "level", "lat", "lon"],
          VarData.pl (outputs.map fun out =>
            (List.range 13).map fun k => out.getD (60 + k) []))] := by
  simp [buildVars, ordering_xr_length]

theorem arange_length (start stop step : Nat) :
    (arange start stop step).length = (stop - start + step - 1) / step := by
  simp [arange]

theorem arange_getD (start stop step j : Nat)
    (h : j < (stop - start + step - 1) / step) :
    (arange start stop step).getD j 0 = start + j * step := by
  rw [arange,
    map_getD_lt (fun n => start + n * step) 0 0 _ j (by simpa using h)]
  have hr : (List.range ((stop - start + step - 1) / step)).getD j 0 = j := by
    rw [List.getD_eq_getElem _ _ (by simpa using h)]
    simp
  rw [hr]

theorem stepsList_length_of_dvd (leadTime : Nat) (h6 : 6 ∣ leadTime) :
    (stepsList leadTime).length = leadTime / 6 := by
  rw [stepsList, arange_length]
  obtain ⟨q, rfl⟩ := h6
  omega

theorem timesList_getD (start : Int) (leadTime s : Nat)
    (h : s < (leadTime + 5) / 6) :
    (timesList start leadTime).getD s 0 = start + ((s : Int) + 1) * 6 := by
  have hlen : s < (stepsList leadTime).length := by
    rw [stepsList, arange_length]
    omega
  have hmap := map_getD_lt (fun n : Nat => start + (n : Int)) 0 0
    (stepsList leadTime) s hlen
  rw [timesList, hmap, stepsList, arange_getD 6 (leadTime + 6) 6 s (by omega)]
  push_cast
  ring

theorem writesNonList_mem (trace : RunTrace) (w : Nat × Nat × List ℚ) :
    w ∈ writesNonList trace ↔
      ∃ p ∈ trace.emitted, w.1 = p.1 ∧ w.2.1 < p.2.length ∧
        w.2.2 = p.2.getD w.2.1 [] := by
  rcases w with ⟨a, b, c⟩
  simp only [writesNonList, List.mem_flatMap, List.mem_map, List.mem_range]
  constructor
  · rintro ⟨p, hp, k, hk, heq⟩
    obtain ⟨h1, h2, h3⟩ : p.1 = a ∧ k = b ∧ p.2.getD k [] = c := by
      simpa [Prod.ext_iff] using heq
    subst h2
    exact ⟨p, hp, h1.symm, hk, h3.symm⟩
  · rintro ⟨p, hp, h1, h2, h3⟩
    exact ⟨p, hp, b, h2, by simp [h1, h3]⟩

theorem mkDataset_pos (dvs : List (String × List String × VarData))
    (lat lon : List ℚ) (times : List Int) (levels : List Nat)
    (h : (dvs.all fun v => v.2.2.timeLen == times.length) = true) :
    mkDataset dvs lat lon times levels = some ⟨dvs, lat, lon, times, levels⟩ := by
  simp [mkDataset, h]

/-- C6 counterexample: at `lead_time = 7` (not a multiple of
`hour_steps = 6`) the loop emits `7 // 6 = 1` step, but the time
coordinate `np.arange(6, 7 + 6, 6)` has 2 entries, so the dataset
construction fails instead of producing exactly one timestamp per
emitted step. -/
theorem dataset_time_mismatch_counterexample :
    (runInference (fun t => t) [] [] 7 exTensor).emitted.length = 1 ∧
    (timesList 0 7).length = 2 ∧
    assembleDataset (fun t => t) [] [] 7 exTensor 0 [] [] = none := by
  refine ⟨by decide, by decide, ?_⟩
  have hfalse : ((buildVars
      ((runInference (fun t => t) [] [] 7 exTensor).emitted.map Prod.snd) 0 0).all
        fun v => v.2.2.timeLen == (timesList 0 7).length) = false := by
    rw [buildVars_unfold]
    decide
  simp only [assembleDataset]
  simp [mkDataset, hfalse]

/-- C6 (amended with `hour_steps ∣ lead_time`): in the list branch, `run`
assembles one labelled dataset with the 8 surface variables of dims
(time, lat, lon) holding channel j of each emitted step, and 5
pressure-level variables of dims (time, level, lat, lon) whose variable j
takes its 13 level slices from the consecutive channels `8 + 13*j + k`,
with level coordinate `param_level_pl[1]` reversed and, when `lead_time`
is a multiple of `hour_steps = 6`, exactly one timestamp
`start + (s + 1) * 6` hours per emitted step; the dataset is then written
to a NetCDF file.  In the non-list branch every channel of every emitted
step is handed to `self.write` with its step label instead. -/
theorem run_dataset_assembly (model : Tensor → Tensor) (means stds : List ℚ)
    (leadTime : Nat) (x0 : Tensor) (start : Int) (lat lon : List ℚ)
    (h6 : hour_steps ∣ leadTime) :
    (∃ ds : Dataset,
      assembleDataset model means stds leadTime x0 start lat lon = some ds ∧
      ds.data_vars = buildVars
        ((runInference model means stds leadTime x0).emitted.map Prod.snd) 0 0 ∧
      ds.data_vars.length = 13 ∧
      (∀ j, j < 8 →
        ds.data_vars.getD j ("", [], VarData.sfc []) =
          (ordering_xr.getD j "", ["time", "lat", "lon"],
            VarData.sfc
              (((runInference model means stds leadTime x0).emitted.map
                Prod.snd).map fun out => out.getD j []))) ∧
      (∀ j, j < 5 →
        ds.data_vars.getD (8 + j) ("", [], VarData.sfc []) =
          (param_level_pl.1.getD j "", ["time", "level", "lat", "lon"],
            VarData.pl
              (((runInference model means stds leadTime x0).emitted.map
                Prod.snd).map fun out =>
                  (List.range 13).map fun k => out.getD (8 + 13 * j + k) []))) ∧
      ds.isobaricInhPa = param_level_pl.2.reverse ∧
      ds.time.length = leadTime / hour_steps ∧
      (∀ s, s < leadTime / hour_steps →
        ds.time.getD s 0 = start + ((s : Int) + 1) * 6)) ∧
    (∀ w : Nat × Nat × List ℚ,
      w ∈ writesNonList (runInference model means stds leadTime x0) ↔
        ∃ p ∈ (runInference model means stds leadTime x0).emitted,
          w.1 = p.1 ∧ w.2.1 < p.2.length ∧ w.2.2 = p.2.getD w.2.1 []) := by
  have hrun : runInference model means stds leadTime x0 =
      runLoop model means stds (leadTime / hour_steps) 0 x0 := rfl
  have houtlen :
      (runInference model means stds leadTime x0).emitted.length
        = leadTime / 6 := by
    rw [hrun, runLoop_emitted_length]
    rfl
  have htimeslen : (timesList start leadTime).length = leadTime / 6 := by
    rw [timesList, List.length_map, stepsList_length_of_dvd leadTime h6]
  have hall : ((buildVars
      ((runInference model means stds leadTime x0).emitted.map Prod.snd) 0 0).all
        fun v => v.2.2.timeLen == (timesList start leadTime).length) = true := by
    rw [buildVars_unfold]
    simp [VarData.timeLen, htimeslen, houtlen, hour_steps]
  refine ⟨⟨⟨buildVars
      ((runInference model means stds leadTime x0).emitted.map Prod.snd) 0 0,
      lat, lon, timesList start leadTime, param_level_pl.2.reverse⟩,
    ?_, rfl, ?_, ?_, ?_, rfl, ?_, ?_⟩, fun w => writesNonList_mem _ w⟩
  · simp only [assembleDataset]
    exact mkDataset_pos _ lat lon _ _ hall
  · rw [buildVars_unfold]
    rfl
  · intro j hj
    interval_cases j <;> simp [buildVars_unfold]
  · intro j hj
    interval_cases j <;> simp [buildVars_unfold]
  · show (timesList start leadTime).length = leadTime / hour_steps
    rw [htimeslen]
    rfl
  · intro s hs
    refine timesList_getD start leadTime s ?_
    have hs6 : s < leadTime / 6 := hs
    omega

/-- Witness for `run_channel_selection` at channel 10. -/
theorem run_channel_selection_witness :
    (((selOrderCml exFl).getD 10 ("", 0)).1 = ordering_cml.getD 10 "" ∧
      (selOrderCml exFl).getD 10 ("", 0) =
        (exFl.find? fun kv => kv.1 == ordering_cml.getD 10 "").getD ("", 0)) ∧
    (10 < 8 → (assembleXr exSfc exPl).getD 10 0 = exSfc (param_sfc_xr.getD 10 "")) ∧
    (8 ≤ 10 →
      (assembleXr exSfc exPl).getD 10 0 =
        exPl ((ordering_xr.getD 10 "").take 1) ((ordering_xr.getD 10 "").drop 1)) :=
  run_channel_selection exFl exSfc exPl ("", 0) 0 10 (by decide) (by decide)

/-- Witness for `load_statistics_spec` on a concrete state and filesystem. -/
theorem load_statistics_spec_witness :
    load_statistics exFs exSt =
      { exSt with
        means := astypeFloat32 (truncateAxis1 backbone_channels
          (exFs (exSt.assets ++ "/global_means.npy"))),
        stds := astypeFloat32 (truncateAxis1 backbone_channels
          (exFs (exSt.assets ++ "/global_stds.npy"))) } ∧
    (∀ row ∈ (load_statistics exFs exSt).means.data, row.length ≤ 73) ∧
    (∀ row ∈ (load_statistics exFs exSt).stds.data, row.length ≤ 73) :=
  load_statistics_spec exFs exSt (by decide)

/-- Witness for `run_dataset_assembly` at `lead_time = 12`, the identity
network. -/
theorem run_dataset_assembly_witness :
    (∃ ds : Dataset,
      assembleDataset (fun t => t) [2] [3] 12 exTensor 0 [] [] = some ds ∧
      ds.data_vars = buildVars
        ((runInference (fun t => t) [2] [3] 12 exTensor).emitted.map Prod.snd) 0 0 ∧
      ds.data_vars.length = 13 ∧
      (∀ j, j < 8 →
        ds.data_vars.getD j ("", [], VarData.sfc []) =
          (ordering_xr.getD j "", ["time", "lat", "lon"],
            VarData.sfc
              (((runInference (fun t => t) [2] [3] 12 exTensor).emitted.map
                Prod.snd).map fun out => out.getD j []))) ∧
      (∀ j, j < 5 →
        ds.data_vars.getD (8 + j) ("", [], VarData.sfc []) =
          (param_level_pl.1.getD j "", ["time", "level", "lat", "lon"],
            VarData.pl
              (((runInference (fun t => t) [2] [3] 12 exTensor).emitted.map
                Prod.snd).map fun out =>
                  (List.range 13).map fun k => out.getD (8 + 13 * j + k) []))) ∧
      ds.isobaricInhPa = param_level_pl.2.reverse ∧
      ds.time.length = 12 / hour_steps ∧
      (∀ s, s < 12 / hour_steps →
        ds.time.getD s 0 = 0 + ((s : Int) + 1) * 6)) ∧
    (∀ w : Nat × Nat × List ℚ,
      w ∈ writesNonList (runInference (fun t => t) [2] [3] 12 exTensor) ↔
        ∃ p ∈ (runInference (fun t => t) [2] [3] 12 exTensor).emitted,
          w.1 = p.1 ∧ w.2.1 < p.2.length ∧ w.2.2 = p.2.getD w.2.1 []) :=
  run_dataset_assembly (fun t => t) [2] [3] 12 exTensor 0 [] [] (by decide)

end FCNv2
